import Mathlib

/-!
# Event feed of the ERC20 approve demo (`src/frontend/src/App.jsx`)

A shallow embedding of the `init` routine of `App`: the historical backfill
(`queryFilter` results → `allEvents` → `uniqueBlocks` → `blockMap` → `pastLogs`
→ `setLogs`), the two live handlers registered with `contract.on`, and the
cleanup closure returned by the effect.

Conventions:
* addresses and decimal strings are `String`; `uint256` values and block
  numbers are `Nat`; a property read that gives `undefined` is `none`;
* in the backfill `provider.getBlock` is a parameter
  `getBlock : Nat → Option Block` (`none`: the promise rejects, or resolves to
  `null` so that reading `block.timestamp` on line 61 throws inside the `async`
  callback; either way `Promise.all` rejects);
* in a live handler the two failures differ and the lookup is a `Lookup`: a
  rejection stops the handler on its first line, a `null` block makes the
  `setLogs` updater throw when React runs it;
* `Date.prototype.toLocaleString` depends on the host locale and is a
  parameter `toLocaleString : Nat → String` applied to the millisecond value;
* the listener arguments are those of ethers v6, the version whose API the
  file uses (`BrowserProvider`, `ZeroAddress`, `parseUnits`).
-/

namespace App

/-! ## Data model -/

/-- The constant `ethers.ZeroAddress`. -/
def ZeroAddress : String := "0x0000000000000000000000000000000000000000"

/-- The `args` of a raw `Transfer(from, to, value)` log. -/
structure TransferArgs where
  from_ : String
  to_ : String
  value : Nat
  deriving DecidableEq, Repr

/-- A raw `Transfer` event as returned by `contract.queryFilter("Transfer", 0, "latest")`. -/
structure TransferEvent where
  args : TransferArgs
  blockNumber : Nat
  deriving DecidableEq, Repr

/-- The `args` of a raw `Approval(owner, spender, value)` log. -/
structure ApprovalArgs where
  owner : String
  spender : String
  value : Nat
  deriving DecidableEq, Repr

/-- A raw `Approval` event as returned by `contract.queryFilter("Approval", 0, "latest")`. -/
structure ApprovalEvent where
  args : ApprovalArgs
  blockNumber : Nat
  deriving DecidableEq, Repr

/-- The two object shapes built in `allEvents` (lines 39-45 and 46-52):
`{type: "Transfer", from, to, value, blockNumber}` and
`{type: "Approval", owner, spender, value, blockNumber}`. -/
inductive Entry where
  | Transfer (from_ to_ value : String) (blockNumber : Nat)
  | Approval (owner spender value : String) (blockNumber : Nat)
  deriving DecidableEq, Repr

/-- The `blockNumber` field of an entry. -/
def Entry.blockNumber : Entry → Nat
  | .Transfer _ _ _ bn => bn
  | .Approval _ _ _ bn => bn

/-- A feed record `{...e, time}`: an entry with its `time` field, which is
`undefined` (`none`) when `blockMap` has no key for the block. -/
structure Log where
  entry : Entry
  time : Option String
  deriving DecidableEq, Repr

/-- The `blockNumber` field of a feed record. -/
def Log.blockNumber (l : Log) : Nat := l.entry.blockNumber

/-- The block object returned by `provider.getBlock`; only `timestamp` is read. -/
structure Block where
  timestamp : Nat
  deriving DecidableEq, Repr

/-! ## Library functions used by `init` -/

/-- The method `value.toString()` of a bigint: its decimal rendering. -/
def bigintToString (value : Nat) : String := Nat.repr value

/-- Insertion of `x` into a list already ordered by the comparator: `x` goes
before the first `y` with `compareFn x y ≤ 0`. -/
def sortInsert {α : Type} (compareFn : α → α → Int) (x : α) : List α → List α
  | [] => [x]
  | y :: ys => if compareFn x y ≤ 0 then x :: y :: ys else y :: sortInsert compareFn x ys

/-- The method `Array.prototype.sort(compareFn)`, which ECMAScript specifies to
be stable: realised as an insertion sort that inserts from the right, so that
an element never moves past an earlier one it compares equal to. -/
def sort {α : Type} (compareFn : α → α → Int) : List α → List α
  | [] => []
  | x :: xs => sortInsert compareFn x (sort compareFn xs)

/-- The expression `[...new Set(xs)]`: the distinct elements of `xs` in order of
first occurrence. `setAdd` is `Set.prototype.add` on the insertion-ordered
element list. -/
def setAdd (s : List Nat) (x : Nat) : List Nat :=
  if x ∈ s then s else s ++ [x]

/-- The constructor `new Set(xs)` followed by spreading: adds the elements left to right. -/
def newSet (xs : List Nat) : List Nat := xs.foldl setAdd []

/-! ## `init`: the backfill (lines 34-71) -/

/-- The array `allEvents` (lines 36-53). -/
def allEvents (transferEvents : List TransferEvent) (approvalEvents : List ApprovalEvent) :
    List Entry :=
  ((transferEvents.filter (fun e => e.args.from_ != ZeroAddress)).map
      (fun e => Entry.Transfer e.args.from_ e.args.to_ (bigintToString e.args.value) e.blockNumber))
    ++ approvalEvents.map
      (fun e => Entry.Approval e.args.owner e.args.spender (bigintToString e.args.value)
        e.blockNumber)

/-- The array `uniqueBlocks` (line 56). -/
def uniqueBlocks (allEvents : List Entry) : List Nat :=
  newSet (allEvents.map (fun e => e.blockNumber))

/-- One call `provider.getBlock(bn)` (line 60): the call is appended to the
trace of calls made so far and the provider's answer is returned. -/
def getBlockLogged (getBlock : Nat → Option Block) (calls : List Nat) (bn : Nat) :
    List Nat × Option Block :=
  (calls ++ [bn], getBlock bn)

/-- The statement `await Promise.all(uniqueBlocks.map(async (bn) => ...))` (lines 59-62),
started with the trace `calls` of earlier `provider.getBlock` calls. `map` runs
every callback up to its first `await`, so each element issues its call, in
order, whether or not another lookup fails. The first component is the trace
afterwards; the second is the resulting `blockMap` as an association list, or
`none` when some callback throws (then `Promise.all` rejects and `init` stops). -/
def resolveBlocks (getBlock : Nat → Option Block) (toLocaleString : Nat → String) :
    List Nat → List Nat → List Nat × Option (List (Nat × String))
  | [], calls => (calls, some [])
  | bn :: rest, calls =>
    let r1 := getBlockLogged getBlock calls bn
    let r2 := resolveBlocks getBlock toLocaleString rest r1.1
    (r2.1,
      match r1.2, r2.2 with
      | some block, some blockMap => some ((bn, toLocaleString (block.timestamp * 1000)) :: blockMap)
      | _, _ => none)

/-- The comparator `(a, b) => b.blockNumber - a.blockNumber` (line 69). -/
def compareFn (a b : Log) : Int := (b.blockNumber : Int) - (a.blockNumber : Int)

/-- The array `pastLogs` (lines 64-69) for a given `blockMap`. -/
def pastLogs (blockMap : List (Nat × String)) (allEvents : List Entry) : List Log :=
  sort compareFn (allEvents.map (fun e => { entry := e, time := blockMap.lookup e.blockNumber }))

/-- The backfill part of `init` from the two query results on: the argument
passed to `setLogs` on line 71, or `none` when line 59 throws. -/
def backfill (getBlock : Nat → Option Block) (toLocaleString : Nat → String)
    (transferEvents : List TransferEvent) (approvalEvents : List ApprovalEvent) :
    Option (List Log) :=
  let all := allEvents transferEvents approvalEvents
  match (resolveBlocks getBlock toLocaleString (uniqueBlocks all) []).2 with
  | some blockMap => some (pastLogs blockMap all)
  | none => none

/-- The trace of `provider.getBlock` calls issued by the backfill for the
normalized batch `allEvents`, no call having been made before. -/
def backfillLookups (getBlock : Nat → Option Block) (toLocaleString : Nat → String)
    (allEvents : List Entry) : List Nat :=
  (resolveBlocks getBlock toLocaleString (uniqueBlocks allEvents) []).1

/-- The `logs` state after `init`'s backfill, starting from `useState([])`:
replaced by `pastLogs` when line 71 is reached, left at `[]` otherwise. -/
def logsAfterInit (getBlock : Nat → Option Block) (toLocaleString : Nat → String)
    (transferEvents : List TransferEvent) (approvalEvents : List ApprovalEvent) : List Log :=
  match backfill getBlock toLocaleString transferEvents approvalEvents with
  | some p => p
  | none => []

/-! ## `init`: the live handlers (lines 74-102) -/

/-- The outcome of awaiting `provider.getBlock(tag)` in a live handler: the
promise rejects, or it resolves to a block or to `null` (`none`). -/
inductive Lookup where
  | rejected
  | resolved (block : Option Block)
  deriving DecidableEq, Repr

/-- The log of a live event, `event.log` in ethers v6; its `blockNumber` is the
block the event was emitted in. -/
structure EventLog where
  blockNumber : Nat
  deriving DecidableEq, Repr

/-- The last argument of a `contract.on` listener in ethers v6, a
`ContractEventPayload`. -/
structure ContractEventPayload where
  log : EventLog
  deriving DecidableEq, Repr

/-- The expression `event.blockNumber` of lines 75, 82, 90 and 97 on a
`ContractEventPayload`: the payload keeps the number at `event.log.blockNumber`
and has no `blockNumber` property of its own, so the read gives `undefined`. -/
def ContractEventPayload.blockNumber (_event : ContractEventPayload) : Option Nat := none

/-- The method `provider.getBlock(tag)` of ethers v6 on a chain that answers
`chain bn` for block `bn` and whose head is block `latest`: a tag that is
`undefined` stands for `"latest"`. -/
def getBlockByTag (chain : Nat → Lookup) (latest : Nat) (tag : Option Nat) : Lookup :=
  match tag with
  | some bn => chain bn
  | none => chain latest

/-- An element of the `logs` state: a record of `pastLogs` (lines 65-68), or
the object built by the live Transfer handler (lines 77-84) or by the live
Approval handler (lines 92-99), whose `blockNumber` is whatever
`event.blockNumber` gave and whose `time` is always a string. -/
inductive FeedItem where
  | past (l : Log)
  | liveTransfer (from_ to_ value : String) (blockNumber : Option Nat) (time : String)
  | liveApproval (owner spender value : String) (blockNumber : Option Nat) (time : String)
  deriving DecidableEq, Repr

/-- The `blockNumber` field of a feed element. -/
def FeedItem.blockNumber : FeedItem → Option Nat
  | .past l => some l.blockNumber
  | .liveTransfer _ _ _ bn _ => bn
  | .liveApproval _ _ _ bn _ => bn

/-- The `time` field of a feed element. -/
def FeedItem.time : FeedItem → Option String
  | .past l => l.time
  | .liveTransfer _ _ _ _ t => some t
  | .liveApproval _ _ _ _ t => some t

/-- What a live handler does to the feed `prev`: its promise rejects on the
`await` of its first line and `setLogs` is not called (`rejected`); or `setLogs`
is called and the updater throws on `block.timestamp` when React runs it
(`thrown`); or the updater returns the new feed (`updated`). -/
inductive Outcome where
  | rejected
  | thrown
  | updated (logs : List FeedItem)
  deriving DecidableEq, Repr

/-- The handler of `contract.on("Transfer", ...)` (lines 74-87) with the feed
`prev` its updater is run on. -/
def onTransfer (getBlock : Option Nat → Lookup) (toLocaleString : Nat → String)
    (from_ to_ : String) (value : Nat) (event : ContractEventPayload) (prev : List FeedItem) :
    Outcome :=
  match getBlock event.blockNumber with
  | .rejected => .rejected
  | .resolved none => .thrown
  | .resolved (some block) =>
    .updated (FeedItem.liveTransfer from_ to_ (bigintToString value) event.blockNumber
      (toLocaleString (block.timestamp * 1000)) :: prev)

/-- The handler of `contract.on("Approval", ...)` (lines 89-102) with the feed
`prev` its updater is run on. -/
def onApproval (getBlock : Option Nat → Lookup) (toLocaleString : Nat → String)
    (owner spender : String) (value : Nat) (event : ContractEventPayload) (prev : List FeedItem) :
    Outcome :=
  match getBlock event.blockNumber with
  | .rejected => .rejected
  | .resolved none => .thrown
  | .resolved (some block) =>
    .updated (FeedItem.liveApproval owner spender (bigintToString value) event.blockNumber
      (toLocaleString (block.timestamp * 1000)) :: prev)

/-! ## A session: one backfill, then live deliveries -/

/-- The arguments a live handler is called with. -/
inductive LiveEvent where
  | Transfer (from_ to_ : String) (value : Nat) (event : ContractEventPayload)
  | Approval (owner spender : String) (value : Nat) (event : ContractEventPayload)
  deriving DecidableEq, Repr

/-- The block a live event was emitted in, `event.log.blockNumber`. -/
def LiveEvent.blockNumber : LiveEvent → Nat
  | .Transfer _ _ _ event => event.log.blockNumber
  | .Approval _ _ _ event => event.log.blockNumber

/-- A live delivery: the event and the provider as it answers when the handler
makes its `provider.getBlock` call. -/
structure Delivery where
  event : LiveEvent
  getBlock : Option Nat → Lookup

/-- The `logs` state after an outcome on the feed `prev`; `none` stands for the
component being unmounted: an updater that throws does so while React renders,
nothing in `App` catches it, and React removes the tree. -/
def applyOutcome (prev : List FeedItem) : Outcome → Option (List FeedItem)
  | .rejected => some prev
  | .thrown => none
  | .updated logs => some logs

/-- The `logs` state after the handler for one delivery has run; a `setLogs`
call on the unmounted component does nothing. -/
def deliver (toLocaleString : Nat → String) (d : Delivery) :
    Option (List FeedItem) → Option (List FeedItem)
  | none => none
  | some prev =>
    match d.event with
    | .Transfer from_ to_ value event =>
      applyOutcome prev (onTransfer d.getBlock toLocaleString from_ to_ value event prev)
    | .Approval owner spender value event =>
      applyOutcome prev (onApproval d.getBlock toLocaleString owner spender value event prev)

/-- The `logs` state after a sequence of live deliveries, handled in the order
their `setLogs` updates run. -/
def runLive (toLocaleString : Nat → String) (ds : List Delivery)
    (state : Option (List FeedItem)) : Option (List FeedItem) :=
  ds.foldl (fun st d => deliver toLocaleString d st) state

/-- The `logs` state of a session: `init` runs the backfill and only then
registers the handlers (lines 74 and 89 follow line 71), so live deliveries
act on the backfilled feed; when the backfill throws no handler is ever
registered and the feed stays at its initial value `[]`. -/
def session (getBlock : Nat → Option Block) (toLocaleString : Nat → String)
    (transferEvents : List TransferEvent) (approvalEvents : List ApprovalEvent)
    (ds : List Delivery) : Option (List FeedItem) :=
  match backfill getBlock toLocaleString transferEvents approvalEvents with
  | some p => runLive toLocaleString ds (some (p.map FeedItem.past))
  | none => some []

/-! ## The effect and its cleanup (lines 8, 11, 29-30, 74, 89, 107-110) -/

/-- The listener tables of the contract objects, by object reference: the event
names that have a handler registered, in registration order. -/
abbrev Listeners := Nat → List String

/-- The method `contract.on(name, handler)` on the contract object `c`. -/
def contractOn (c : Nat) (name : String) (ls : Listeners) : Listeners :=
  fun r => if r = c then ls r ++ [name] else ls r

/-- The method `removeAllListeners()` on the contract object `c`. -/
def removeAllListeners (c : Nat) (ls : Listeners) : Listeners :=
  fun r => if r = c then [] else ls r

/-- The cleanup closure `() => { if (token) token.removeAllListeners(); }`
(lines 107-109); `token` is the binding of the render that created the closure
(`none` for `null`). -/
def cleanup (token : Option Nat) (ls : Listeners) : Listeners :=
  match token with
  | some c => removeAllListeners c ls
  | none => ls

/-- The registrations made by `init` on the contract `c` it creates (lines 74 and 89). -/
def initSubscribe (c : Nat) (ls : Listeners) : Listeners :=
  contractOn c "Approval" (contractOn c "Transfer" ls)

/-- The initial value of the `token` state, `useState(null)` (line 8). -/
def tokenInitial : Option Nat := none

/-- The listener tables after a whole session: the effect has the dependency
list `[]` (line 110), so it runs once, in the first render, and the cleanup
closure it returns holds that render's `token`, the initial state;
`setToken(contract)` (line 30) changes the state seen by later renders, not
this binding. `init` then registers its handlers on the contract `c`, and at
unmount the cleanup closure runs. -/
def mountThenUnmount (c : Nat) (ls : Listeners) : Listeners :=
  cleanup tokenInitial (initSubscribe c ls)

/-! ## Properties of the feed stated in the claims -/

/-- A feed is in descending block order: no record is followed, anywhere
later, by a record with a larger `blockNumber`. -/
abbrev Desc (l : List Log) : Prop :=
  l.Pairwise (fun a b => b.blockNumber ≤ a.blockNumber)

/-- The records of a feed that belong to block `k`, in feed order. -/
def atBlock (k : Nat) (l : List Log) : List Log :=
  l.filter (fun r => r.blockNumber == k)

/-- The test that `a` may stand before `b` in a feed ordered by block: both
carry a block number and that of `b` is not the larger. -/
def descPair (a b : FeedItem) : Bool :=
  match a.blockNumber, b.blockNumber with
  | some x, some y => decide (y ≤ x)
  | _, _ => false

/-- The `logs` state is in descending block order: every record stands only
before records it may stand before. -/
abbrev FeedDesc (feed : List FeedItem) : Prop :=
  feed.Pairwise (fun a b => descPair a b = true)

/-! ## Concrete scenarios -/

/-- A host formatting that prints the millisecond value in decimal. -/
def sampleLocale : Nat → String := fun ms => Nat.repr ms

/-- A provider on which every lookup succeeds: block `bn` has timestamp `12 * bn`. -/
def sampleChain : Nat → Option Block := fun bn => some { timestamp := 12 * bn }

/-- A provider on which the lookup of block 10 fails and every other succeeds. -/
def chainFailingAt10 : Nat → Option Block :=
  fun bn => if bn = 10 then none else some { timestamp := 12 * bn }

/-- The query result of the scenario: one mint in block 1, one ordinary Transfer in block 10. -/
def sampleTransfers : List TransferEvent :=
  [{ args := { from_ := ZeroAddress, to_ := "0xA1", value := 1000 }, blockNumber := 1 },
   { args := { from_ := "0xA1", to_ := "0xB2", value := 5 }, blockNumber := 10 }]

/-- The query result of the scenario: one Approval in block 12. -/
def sampleApprovals : List ApprovalEvent :=
  [{ args := { owner := "0xA1", spender := "0xC3", value := 7 }, blockNumber := 12 }]

/-- The feed `[block12-Approval, block10-Transfer]` of the scenario. -/
def sampleFeed : List Log :=
  [{ entry := Entry.Approval "0xA1" "0xC3" "7" 12, time := some "144000" },
   { entry := Entry.Transfer "0xA1" "0xB2" "5" 10, time := some "120000" }]

/-- The chain of the scenario as a live handler sees it: every lookup resolves. -/
def sampleLookup : Nat → Lookup := fun bn => Lookup.resolved (sampleChain bn)

/-- The payload of a live event emitted in block `bn`. -/
def payloadAt (bn : Nat) : ContractEventPayload := { log := { blockNumber := bn } }

/-- The delivery of a live Approval emitted in block 15, handled when the head
of the chain is block 16. -/
def sampleApprovalDelivery : Delivery :=
  { event := LiveEvent.Approval "0xA1" "0xD4" 9 (payloadAt 15),
    getBlock := getBlockByTag sampleLookup 16 }

/-- The delivery of a live mint emitted in block 16, handled when the head of
the chain is block 16. -/
def sampleMintDelivery : Delivery :=
  { event := LiveEvent.Transfer ZeroAddress "0xA1" 50 (payloadAt 16),
    getBlock := getBlockByTag sampleLookup 16 }

/-- The record the live Approval handler builds for `sampleApprovalDelivery`. -/
def sampleLiveApproval : FeedItem :=
  FeedItem.liveApproval "0xA1" "0xD4" "9" none "192000"

/-- The record the live Transfer handler builds for `sampleMintDelivery`. -/
def sampleLiveMint : FeedItem :=
  FeedItem.liveTransfer ZeroAddress "0xA1" "50" none "192000"

/-! ## Lemmas on `sort` -/

theorem sortInsert_perm {α : Type} (c : α → α → Int) (x : α) (l : List α) :
    (sortInsert c x l).Perm (x :: l) := by
  induction l with
  | nil => exact List.Perm.refl _
  | cons y ys ih =>
    unfold sortInsert
    split
    · exact List.Perm.refl _
    · exact (List.Perm.cons y ih).trans (List.Perm.swap x y ys)

theorem sort_perm {α : Type} (c : α → α → Int) (l : List α) : (sort c l).Perm l := by
  induction l with
  | nil => exact List.Perm.refl _
  | cons x xs ih =>
    unfold sort
    exact (sortInsert_perm c x _).trans (List.Perm.cons x ih)

theorem sortInsert_desc (x : Log) (l : List Log) (h : Desc l) :
    Desc (sortInsert compareFn x l) := by
  induction l with
  | nil => simp [sortInsert, Desc]
  | cons y ys ih =>
    have hy := List.pairwise_cons.mp h
    unfold sortInsert
    split
    · rename_i hc
      have hxy : y.blockNumber ≤ x.blockNumber := by
        unfold compareFn at hc
        omega
      refine List.pairwise_cons.mpr ⟨?_, h⟩
      intro b hb
      rcases List.mem_cons.mp hb with rfl | hb
      · exact hxy
      · exact le_trans (hy.1 b hb) hxy
    · rename_i hc
      have hxy : x.blockNumber ≤ y.blockNumber := by
        unfold compareFn at hc
        omega
      refine List.pairwise_cons.mpr ⟨?_, ih hy.2⟩
      intro b hb
      have hb2 : b ∈ x :: ys := (sortInsert_perm compareFn x ys).mem_iff.mp hb
      rcases List.mem_cons.mp hb2 with rfl | hb2
      · exact hxy
      · exact hy.1 b hb2

theorem sort_desc (l : List Log) : Desc (sort compareFn l) := by
  induction l with
  | nil => simp [sort, Desc]
  | cons x xs ih =>
    unfold sort
    exact sortInsert_desc x _ ih

theorem atBlock_sortInsert (k : Nat) (x : Log) (l : List Log) :
    atBlock k (sortInsert compareFn x l) = atBlock k (x :: l) := by
  induction l with
  | nil => rfl
  | cons y ys ih =>
    unfold sortInsert
    split
    · rfl
    · rename_i hc
      have hxy : x.blockNumber < y.blockNumber := by
        unfold compareFn at hc
        omega
      unfold atBlock at ih ⊢
      rw [List.filter_cons, ih]
      by_cases hyk : y.blockNumber = k
      · have hxk : ¬ x.blockNumber = k := by omega
        simp [List.filter_cons, hyk, hxk]
      · simp [List.filter_cons, hyk]

theorem atBlock_sort (k : Nat) (l : List Log) :
    atBlock k (sort compareFn l) = atBlock k l := by
  induction l with
  | nil => rfl
  | cons x xs ih =>
    unfold sort
    rw [atBlock_sortInsert]
    unfold atBlock at ih ⊢
    rw [List.filter_cons, List.filter_cons, ih]

/-! ## Lemmas on `newSet` -/

theorem foldl_setAdd_nodup (xs s : List Nat) (h : s.Nodup) : (xs.foldl setAdd s).Nodup := by
  induction xs generalizing s with
  | nil => exact h
  | cons x xs ih =>
    rw [List.foldl_cons]
    apply ih
    unfold setAdd
    split
    · exact h
    · rename_i hx
      exact List.Nodup.append h (List.nodup_singleton x) (by
        intro a ha hb
        rw [List.mem_singleton] at hb
        exact hx (hb ▸ ha))

theorem mem_foldl_setAdd (xs s : List Nat) (a : Nat) :
    a ∈ xs.foldl setAdd s ↔ a ∈ s ∨ a ∈ xs := by
  induction xs generalizing s with
  | nil => simp
  | cons x xs ih =>
    rw [List.foldl_cons, ih]
    unfold setAdd
    split
    · rename_i hx
      constructor
      · rintro (h | h)
        · exact Or.inl h
        · exact Or.inr (List.mem_cons_of_mem _ h)
      · rintro (h | h)
        · exact Or.inl h
        · rcases List.mem_cons.mp h with rfl | h
          · exact Or.inl hx
          · exact Or.inr h
    · simp only [List.mem_append, List.mem_singleton, List.mem_cons]
      tauto

theorem newSet_nodup (xs : List Nat) : (newSet xs).Nodup :=
  foldl_setAdd_nodup xs [] List.nodup_nil

theorem mem_newSet (xs : List Nat) (a : Nat) : a ∈ newSet xs ↔ a ∈ xs := by
  unfold newSet
  rw [mem_foldl_setAdd]
  simp

theorem newSet_length (xs : List Nat) : (newSet xs).length = xs.toFinset.card := by
  rw [← List.toFinset_card_of_nodup (newSet_nodup xs)]
  congr 1
  ext a
  simp [mem_newSet]

/-! ## Lemmas on `resolveBlocks`, `pastLogs` and `backfill` -/

theorem resolveBlocks_calls (getBlock : Nat → Option Block) (fmt : Nat → String)
    (l calls : List Nat) : (resolveBlocks getBlock fmt l calls).1 = calls ++ l := by
  induction l generalizing calls with
  | nil => simp [resolveBlocks]
  | cons bn rest ih => simp [resolveBlocks, getBlockLogged, ih]

theorem resolveBlocks_lookup (getBlock : Nat → Option Block) (fmt : Nat → String)
    (l calls : List Nat) (m : List (Nat × String))
    (h : (resolveBlocks getBlock fmt l calls).2 = some m) :
    ∀ bn ∈ l, ∃ block, getBlock bn = some block ∧
      m.lookup bn = some (fmt (block.timestamp * 1000)) := by
  induction l generalizing m calls with
  | nil => intro bn hbn; cases hbn
  | cons b rest ih =>
    simp only [resolveBlocks, getBlockLogged] at h
    cases hg : getBlock b with
    | none => simp [hg] at h
    | some block =>
      cases hr : (resolveBlocks getBlock fmt rest (calls ++ [b])).2 with
      | none => simp [hg, hr] at h
      | some m1 =>
        simp only [hg, hr, Option.some.injEq] at h
        subst h
        intro bn hbn
        by_cases hb : bn = b
        · subst hb
          exact ⟨block, hg, by simp [List.lookup_cons]⟩
        · have hmem : bn ∈ rest := by
            rcases List.mem_cons.mp hbn with h1 | h1
            · exact absurd h1 hb
            · exact h1
          obtain ⟨blk, h1, h2⟩ := ih _ m1 hr bn hmem
          refine ⟨blk, h1, ?_⟩
          have hne : (bn == b) = false := by simpa using hb
          rw [List.lookup_cons, hne]
          exact h2

theorem resolveBlocks_isSome (getBlock : Nat → Option Block) (fmt : Nat → String)
    (l calls : List Nat) (h : ∀ bn ∈ l, getBlock bn ≠ none) :
    ∃ m, (resolveBlocks getBlock fmt l calls).2 = some m := by
  induction l generalizing calls with
  | nil => exact ⟨[], rfl⟩
  | cons b rest ih =>
    obtain ⟨m1, hm1⟩ := ih (calls ++ [b]) (fun bn hbn => h bn (List.mem_cons_of_mem _ hbn))
    cases hg : getBlock b with
    | none => exact absurd hg (h b (List.mem_cons_self _ _))
    | some block =>
      exact ⟨(b, fmt (block.timestamp * 1000)) :: m1,
        by simp [resolveBlocks, getBlockLogged, hg, hm1]⟩

theorem resolveBlocks_none (getBlock : Nat → Option Block) (fmt : Nat → String)
    (l calls : List Nat) (bn : Nat) (hbn : bn ∈ l) (hg : getBlock bn = none) :
    (resolveBlocks getBlock fmt l calls).2 = none := by
  cases hr : (resolveBlocks getBlock fmt l calls).2 with
  | none => rfl
  | some m =>
    obtain ⟨block, h1, _⟩ := resolveBlocks_lookup getBlock fmt l calls m hr bn hbn
    rw [hg] at h1
    cases h1

theorem mem_uniqueBlocks (all : List Entry) (bn : Nat) :
    bn ∈ uniqueBlocks all ↔ ∃ e ∈ all, e.blockNumber = bn := by
  unfold uniqueBlocks
  rw [mem_newSet]
  simp

theorem pastLogs_entries (m : List (Nat × String)) (all : List Entry) :
    ((pastLogs m all).map Log.entry).Perm all := by
  unfold pastLogs
  refine ((sort_perm compareFn _).map Log.entry).trans ?_
  rw [List.map_map]
  have : (Log.entry ∘ fun e => ({ entry := e, time := m.lookup e.blockNumber } : Log)) = id := by
    funext e
    rfl
  rw [this, List.map_id]

theorem pastLogs_time (m : List (Nat × String)) (all : List Entry) :
    ∀ r ∈ pastLogs m all, r.entry ∈ all ∧ r.time = m.lookup r.blockNumber := by
  intro r hr
  unfold pastLogs at hr
  have h2 := (sort_perm compareFn _).mem_iff.mp hr
  obtain ⟨e, he, rfl⟩ := List.mem_map.mp h2
  exact ⟨he, rfl⟩

theorem pastLogs_atBlock (m : List (Nat × String)) (all : List Entry) (k : Nat) :
    (atBlock k (pastLogs m all)).map Log.entry = all.filter (fun e => e.blockNumber == k) := by
  unfold pastLogs
  rw [atBlock_sort]
  unfold atBlock
  induction all with
  | nil => rfl
  | cons e es ih =>
    by_cases hk : e.blockNumber = k
    · simp [List.filter_cons, Log.blockNumber, hk] at ih ⊢
      exact ih
    · simp [List.filter_cons, Log.blockNumber, hk] at ih ⊢
      exact ih

theorem backfill_of_lookups (getBlock : Nat → Option Block) (fmt : Nat → String)
    (T : List TransferEvent) (A : List ApprovalEvent)
    (h : ∀ bn ∈ uniqueBlocks (allEvents T A), getBlock bn ≠ none) :
    ∃ m, (resolveBlocks getBlock fmt (uniqueBlocks (allEvents T A)) []).2 = some m ∧
      backfill getBlock fmt T A = some (pastLogs m (allEvents T A)) := by
  obtain ⟨m, hm⟩ := resolveBlocks_isSome getBlock fmt _ [] h
  exact ⟨m, hm, by simp [backfill, hm]⟩

theorem backfill_some_inv (getBlock : Nat → Option Block) (fmt : Nat → String)
    (T : List TransferEvent) (A : List ApprovalEvent) (p : List Log)
    (h : backfill getBlock fmt T A = some p) :
    ∃ m, (resolveBlocks getBlock fmt (uniqueBlocks (allEvents T A)) []).2 = some m ∧
      p = pastLogs m (allEvents T A) := by
  unfold backfill at h
  cases hr : (resolveBlocks getBlock fmt (uniqueBlocks (allEvents T A)) []).2 with
  | none => simp [hr] at h
  | some m =>
    simp only [hr, Option.some.injEq] at h
    exact ⟨m, rfl, h.symm⟩

theorem backfill_time (getBlock : Nat → Option Block) (fmt : Nat → String)
    (T : List TransferEvent) (A : List ApprovalEvent) (p : List Log)
    (h : backfill getBlock fmt T A = some p) :
    ∀ r ∈ p, ∃ block, getBlock r.blockNumber = some block ∧
      r.time = some (fmt (block.timestamp * 1000)) := by
  obtain ⟨m, hm, rfl⟩ := backfill_some_inv getBlock fmt T A p h
  intro r hr
  obtain ⟨he, ht⟩ := pastLogs_time m _ r hr
  have hbn : r.blockNumber ∈ uniqueBlocks (allEvents T A) :=
    (mem_uniqueBlocks _ _).mpr ⟨r.entry, he, rfl⟩
  obtain ⟨block, h1, h2⟩ := resolveBlocks_lookup getBlock fmt _ [] m hm _ hbn
  exact ⟨block, h1, ht.trans h2⟩

theorem allEvents_no_zero_from (T : List TransferEvent) (A : List ApprovalEvent)
    (f t v : String) (bn : Nat) (h : Entry.Transfer f t v bn ∈ allEvents T A) :
    f ≠ ZeroAddress := by
  unfold allEvents at h
  rcases List.mem_append.mp h with h | h
  · obtain ⟨e, he, heq⟩ := List.mem_map.mp h
    have hf := (List.mem_filter.mp he).2
    injection heq with h1 _ _ _
    subst h1
    simpa using hf
  · obtain ⟨e, _, heq⟩ := List.mem_map.mp h
    cases heq

/-! ## Lemmas on the live handlers -/

theorem deliver_cases (fmt : Nat → String) (d : Delivery) (prev : List FeedItem) :
    deliver fmt d (some prev) = some prev ∨ deliver fmt d (some prev) = none ∨
      ∃ r, deliver fmt d (some prev) = some (r :: prev) ∧ r.time ≠ none ∧
        r.blockNumber = none := by
  obtain ⟨ev, gb⟩ := d
  cases ev with
  | Transfer f t v e =>
    simp only [deliver, onTransfer]
    cases gb e.blockNumber with
    | rejected => left; rfl
    | resolved b =>
      cases b with
      | none => right; left; rfl
      | some block =>
        right; right
        exact ⟨_, rfl, by simp [FeedItem.time], rfl⟩
  | Approval o sp v e =>
    simp only [deliver, onApproval]
    cases gb e.blockNumber with
    | rejected => left; rfl
    | resolved b =>
      cases b with
      | none => right; left; rfl
      | some block =>
        right; right
        exact ⟨_, rfl, by simp [FeedItem.time], rfl⟩

theorem runLive_none (fmt : Nat → String) (ds : List Delivery) :
    runLive fmt ds none = none := by
  induction ds with
  | nil => rfl
  | cons d ds ih =>
    unfold runLive at ih ⊢
    rw [List.foldl_cons]
    exact ih

theorem runLive_times (fmt : Nat → String) (ds : List Delivery) (prev feed : List FeedItem)
    (h : ∀ r ∈ prev, r.time ≠ none) (hf : runLive fmt ds (some prev) = some feed) :
    ∀ r ∈ feed, r.time ≠ none := by
  induction ds generalizing prev with
  | nil =>
    simp only [runLive, List.foldl_nil, Option.some.injEq] at hf
    subst hf
    exact h
  | cons d ds ih =>
    unfold runLive at hf ih
    rw [List.foldl_cons] at hf
    rcases deliver_cases fmt d prev with h1 | h1 | ⟨r, h1, h2, _⟩
    · rw [h1] at hf
      exact ih prev h hf
    · rw [h1] at hf
      have := runLive_none fmt ds
      unfold runLive at this
      rw [this] at hf
      cases hf
    · rw [h1] at hf
      refine ih (r :: prev) ?_ hf
      intro x hx
      rcases List.mem_cons.mp hx with rfl | hx
      · exact h2
      · exact h x hx

/-! ## The claims -/

/-- C1: when every block lookup of the backfill succeeds, `init` reaches
`setLogs` with a feed in descending `blockNumber` order, and for every block
number the records of that block appear in the order they had in `allEvents`. -/
theorem backfill_sorted_descending_stable (getBlock : Nat → Option Block)
    (fmt : Nat → String) (T : List TransferEvent) (A : List ApprovalEvent)
    (h : ∀ bn ∈ uniqueBlocks (allEvents T A), getBlock bn ≠ none) :
    ∃ feed, backfill getBlock fmt T A = some feed ∧ Desc feed ∧
      ∀ k, (atBlock k feed).map Log.entry =
          (allEvents T A).filter (fun e => e.blockNumber == k) ∧
        (allEvents T A).filter (fun e => e.blockNumber == k) =
          ((T.filter (fun e => e.args.from_ != ZeroAddress)).filter
              (fun e => e.blockNumber == k)).map
            (fun e => Entry.Transfer e.args.from_ e.args.to_ (bigintToString e.args.value)
              e.blockNumber)
          ++ (A.filter (fun e => e.blockNumber == k)).map
            (fun e => Entry.Approval e.args.owner e.args.spender (bigintToString e.args.value)
              e.blockNumber) := by
  obtain ⟨m, _, hb⟩ := backfill_of_lookups getBlock fmt T A h
  refine ⟨_, hb, sort_desc _, fun k => ⟨pastLogs_atBlock m _ k, ?_⟩⟩
  unfold allEvents
  rw [List.filter_append, List.filter_map, List.filter_map]
  rfl

/-- Witness of C1 on the scenario of one mint, one Transfer in block 10 and one
Approval in block 12. -/
theorem backfill_sorted_descending_stable_witness :
    (∀ bn ∈ uniqueBlocks (allEvents sampleTransfers sampleApprovals), sampleChain bn ≠ none) ∧
    ∃ feed, backfill sampleChain sampleLocale sampleTransfers sampleApprovals = some feed ∧
      Desc feed ∧
      ∀ k, (atBlock k feed).map Log.entry =
        (allEvents sampleTransfers sampleApprovals).filter (fun e => e.blockNumber == k) :=
  ⟨by decide,
   (backfill_sorted_descending_stable sampleChain sampleLocale sampleTransfers sampleApprovals
     (by decide)).imp (fun _ hf => ⟨hf.1, hf.2.1, fun k => (hf.2.2 k).1⟩)⟩

/-- C2: no Transfer entry of `allEvents` has the zero address as `from`, and no
Transfer record of the feed left by the backfill has it either. -/
theorem backfill_no_zero_from (getBlock : Nat → Option Block) (fmt : Nat → String)
    (T : List TransferEvent) (A : List ApprovalEvent) :
    (∀ f t v bn, Entry.Transfer f t v bn ∈ allEvents T A → f ≠ ZeroAddress) ∧
    (∀ f t v bn time, ({ entry := Entry.Transfer f t v bn, time := time } : Log) ∈
        logsAfterInit getBlock fmt T A → f ≠ ZeroAddress) := by
  refine ⟨fun f t v bn h => allEvents_no_zero_from T A f t v bn h, ?_⟩
  intro f t v bn time h
  unfold logsAfterInit at h
  cases hb : backfill getBlock fmt T A with
  | none => simp [hb] at h
  | some p =>
    simp only [hb] at h
    obtain ⟨m, _, rfl⟩ := backfill_some_inv getBlock fmt T A p hb
    exact allEvents_no_zero_from T A f t v bn (pastLogs_time m _ _ h).1

/-- C3, the behaviour of the code: the live Transfer handler has no test on
`from`, so a delivery whose `from` is the zero address is prepended like any
other; in the scenario a live mint ends up at the head of the feed. -/
theorem onTransfer_zero_from_is_prepended :
    (∀ (fmt : Nat → String) (to_ : String) (value : Nat) (event : ContractEventPayload)
        (block : Block) (prev : List FeedItem),
      onTransfer (fun _ => Lookup.resolved (some block)) fmt ZeroAddress to_ value event prev =
        Outcome.updated
          (FeedItem.liveTransfer ZeroAddress to_ (bigintToString value) event.blockNumber
            (fmt (block.timestamp * 1000)) :: prev)) ∧
    session sampleChain sampleLocale sampleTransfers sampleApprovals [sampleMintDelivery] =
      some (sampleLiveMint :: sampleFeed.map FeedItem.past) := by
  refine ⟨?_, by decide⟩
  intro fmt to_ value event block prev
  rfl

/-- C4: when every block lookup of the backfill succeeds, the entries of the
feed are a permutation of one Transfer entry per raw Transfer whose `from` is
not the zero address and one Approval entry per raw Approval, each with the
addresses, the decimal rendering of the value and the block number of its raw
event; so the feed has as many records as there are such events. -/
theorem backfill_perm_of_events (getBlock : Nat → Option Block) (fmt : Nat → String)
    (T : List TransferEvent) (A : List ApprovalEvent)
    (h : ∀ bn ∈ uniqueBlocks (allEvents T A), getBlock bn ≠ none) :
    ∃ feed, backfill getBlock fmt T A = some feed ∧
      (feed.map Log.entry).Perm
        ((T.filter (fun e => e.args.from_ != ZeroAddress)).map
            (fun e => Entry.Transfer e.args.from_ e.args.to_ (Nat.repr e.args.value)
              e.blockNumber)
          ++ A.map (fun e => Entry.Approval e.args.owner e.args.spender (Nat.repr e.args.value)
              e.blockNumber)) ∧
      feed.length = T.countP (fun e => e.args.from_ != ZeroAddress) + A.length := by
  obtain ⟨m, _, hb⟩ := backfill_of_lookups getBlock fmt T A h
  have hp := pastLogs_entries m (allEvents T A)
  refine ⟨_, hb, hp, ?_⟩
  have hl := hp.length_eq
  rw [List.length_map] at hl
  rw [hl]
  simp [allEvents, List.countP_eq_length_filter]

/-- Witness of C4: the scenario of one mint, one Transfer in block 10 and one
Approval in block 12 gives exactly `[block12-Approval, block10-Transfer]`. -/
theorem backfill_perm_of_events_witness :
    backfill sampleChain sampleLocale sampleTransfers sampleApprovals = some sampleFeed ∧
    sampleFeed.length = 2 ∧
    ∃ feed, backfill sampleChain sampleLocale sampleTransfers sampleApprovals = some feed ∧
      (feed.map Log.entry).Perm
        ((sampleTransfers.filter (fun e => e.args.from_ != ZeroAddress)).map
            (fun e => Entry.Transfer e.args.from_ e.args.to_ (Nat.repr e.args.value)
              e.blockNumber)
          ++ sampleApprovals.map
            (fun e => Entry.Approval e.args.owner e.args.spender (Nat.repr e.args.value)
              e.blockNumber)) ∧
      feed.length = sampleTransfers.countP (fun e => e.args.from_ != ZeroAddress) +
        sampleApprovals.length :=
  ⟨by decide, by decide,
   backfill_perm_of_events sampleChain sampleLocale sampleTransfers sampleApprovals
     (by decide)⟩

/-- C5, the behaviour of the code: the live handlers look up
`event.blockNumber`, which the payload does not carry, so the provider answers
with the head of the chain; an Approval emitted in block 15 and handled when
the head is block 16 gets the `time` of block 16, not that of block 15. What
holds: every record of every feed of a session has a defined `time`, and a
backfilled record holds the formatted timestamp of the block with its own
`blockNumber`. -/
theorem live_time_is_of_latest_block :
    (session sampleChain sampleLocale sampleTransfers sampleApprovals [sampleApprovalDelivery] =
        some (FeedItem.liveApproval "0xA1" "0xD4" "9" none "192000" ::
          sampleFeed.map FeedItem.past) ∧
      LiveEvent.blockNumber sampleApprovalDelivery.event = 15 ∧
      sampleLookup 15 = Lookup.resolved (some { timestamp := 180 }) ∧
      sampleLocale (180 * 1000) = "180000" ∧
      sampleLookup 16 = Lookup.resolved (some { timestamp := 192 }) ∧
      sampleLocale (192 * 1000) = "192000") ∧
    (∀ (getBlock : Nat → Option Block) (fmt : Nat → String) (T : List TransferEvent)
        (A : List ApprovalEvent) (ds : List Delivery) (feed : List FeedItem),
      session getBlock fmt T A ds = some feed → ∀ r ∈ feed, r.time ≠ none) ∧
    (∀ (getBlock : Nat → Option Block) (fmt : Nat → String) (T : List TransferEvent)
        (A : List ApprovalEvent) (p : List Log),
      backfill getBlock fmt T A = some p →
        ∀ r ∈ p, ∃ block, getBlock r.blockNumber = some block ∧
          r.time = some (fmt (block.timestamp * 1000))) := by
  refine ⟨by decide, ?_, fun getBlock fmt T A p hp => backfill_time getBlock fmt T A p hp⟩
  intro getBlock fmt T A ds feed hs r hr
  unfold session at hs
  cases hb : backfill getBlock fmt T A with
  | none =>
    simp only [hb, Option.some.injEq] at hs
    subst hs
    cases hr
  | some p =>
    simp only [hb] at hs
    refine runLive_times fmt ds (p.map FeedItem.past) feed ?_ hs r hr
    intro x hx
    obtain ⟨l, hl, rfl⟩ := List.mem_map.mp hx
    obtain ⟨block, _, h2⟩ := backfill_time getBlock fmt T A p hb l hl
    simp [FeedItem.time, h2]

/-- C6: the `provider.getBlock` calls issued by the backfill for a normalized
batch are exactly the distinct block numbers of the batch, each once: the trace
has no duplicate, its length is the number of distinct block numbers, and a
block number is looked up exactly when some entry of the batch carries it.
The calls are the ones that fill `blockMap`: if the provider fails on one of
them the backfill has no `blockMap`, and otherwise `blockMap` holds, for each
call, the formatted timestamp of the block the provider answered with. -/
theorem backfill_lookups_distinct (getBlock : Nat → Option Block) (fmt : Nat → String)
    (all : List Entry) :
    backfillLookups getBlock fmt all = uniqueBlocks all ∧
    (backfillLookups getBlock fmt all).Nodup ∧
    (backfillLookups getBlock fmt all).length = (all.map Entry.blockNumber).toFinset.card ∧
    (∀ bn, bn ∈ backfillLookups getBlock fmt all ↔ ∃ e ∈ all, e.blockNumber = bn) ∧
    ((∃ bn ∈ backfillLookups getBlock fmt all, getBlock bn = none) →
      (resolveBlocks getBlock fmt (uniqueBlocks all) []).2 = none) ∧
    ((∀ bn ∈ backfillLookups getBlock fmt all, getBlock bn ≠ none) →
      ∃ m, (resolveBlocks getBlock fmt (uniqueBlocks all) []).2 = some m ∧
        ∀ bn ∈ backfillLookups getBlock fmt all, ∃ block, getBlock bn = some block ∧
          m.lookup bn = some (fmt (block.timestamp * 1000))) := by
  have h1 : backfillLookups getBlock fmt all = uniqueBlocks all := by
    unfold backfillLookups
    rw [resolveBlocks_calls]
    rfl
  rw [h1]
  refine ⟨rfl, newSet_nodup _, newSet_length _, mem_uniqueBlocks all, ?_, ?_⟩
  · rintro ⟨bn, hbn, hg⟩
    exact resolveBlocks_none getBlock fmt _ [] bn hbn hg
  · intro h
    obtain ⟨m, hm⟩ := resolveBlocks_isSome getBlock fmt _ [] h
    exact ⟨m, hm, resolveBlocks_lookup getBlock fmt _ [] m hm⟩

/-- C7, the behaviour of the code: when its lookup resolves to a block, a live
handler puts exactly one new record in front of the previous feed, which is
kept as it was; but the record's `blockNumber` is `event.blockNumber`, which
the payload does not carry, so it is `undefined` and not the block of the
event. A live Approval emitted in block 15 on `[block12-Approval,
block10-Transfer]` gives a feed whose head has no block number. -/
theorem live_record_has_no_blockNumber :
    (∀ (fmt : Nat → String) (a b : String) (value : Nat) (event : ContractEventPayload)
        (block : Block) (prev : List FeedItem),
      onTransfer (fun _ => Lookup.resolved (some block)) fmt a b value event prev =
          Outcome.updated (FeedItem.liveTransfer a b (bigintToString value) none
            (fmt (block.timestamp * 1000)) :: prev) ∧
        onApproval (fun _ => Lookup.resolved (some block)) fmt a b value event prev =
          Outcome.updated (FeedItem.liveApproval a b (bigintToString value) none
            (fmt (block.timestamp * 1000)) :: prev)) ∧
    (onApproval sampleApprovalDelivery.getBlock sampleLocale "0xA1" "0xD4" 9 (payloadAt 15)
        (sampleFeed.map FeedItem.past) =
      Outcome.updated (sampleLiveApproval :: sampleFeed.map FeedItem.past) ∧
      (payloadAt 15).log.blockNumber = 15 ∧
      sampleLiveApproval.blockNumber = none ∧
      sampleLiveApproval.blockNumber ≠ some 15) := by
  refine ⟨?_, by decide⟩
  intro fmt a b value event block prev
  exact ⟨rfl, rfl⟩

/-- C8 as stated fails: with a Transfer in block 10 and an Approval in block 12,
a failed lookup of block 10 makes the backfill throw; `setLogs` is not reached
and the feed stays empty instead of holding the block-12 Approval. -/
theorem backfill_failed_lookup_drops_all :
    backfill chainFailingAt10 sampleLocale sampleTransfers sampleApprovals = none ∧
    logsAfterInit chainFailingAt10 sampleLocale sampleTransfers sampleApprovals = [] ∧
    (logsAfterInit chainFailingAt10 sampleLocale sampleTransfers sampleApprovals).any
      (fun r => r.blockNumber == 12) = false ∧
    chainFailingAt10 12 ≠ none ∧
    (allEvents sampleTransfers sampleApprovals).any (fun e => e.blockNumber == 12) = true := by
  decide

/-- C8 amended: if the lookup of some block of the batch fails, the backfill
throws and the feed stays at its initial empty value; if none fails, the feed
holds one record per entry of the batch; in both cases no record of the feed
has an undefined `time`. -/
theorem backfill_all_or_nothing (getBlock : Nat → Option Block) (fmt : Nat → String)
    (T : List TransferEvent) (A : List ApprovalEvent) :
    ((∃ bn ∈ uniqueBlocks (allEvents T A), getBlock bn = none) →
      backfill getBlock fmt T A = none ∧ logsAfterInit getBlock fmt T A = []) ∧
    ((∀ bn ∈ uniqueBlocks (allEvents T A), getBlock bn ≠ none) →
      ((logsAfterInit getBlock fmt T A).map Log.entry).Perm (allEvents T A)) ∧
    (∀ r ∈ logsAfterInit getBlock fmt T A, r.time ≠ none) := by
  refine ⟨?_, ?_, ?_⟩
  · rintro ⟨bn, hbn, hg⟩
    have hr := resolveBlocks_none getBlock fmt _ [] bn hbn hg
    have hb : backfill getBlock fmt T A = none := by simp [backfill, hr]
    exact ⟨hb, by simp [logsAfterInit, hb]⟩
  · intro h
    obtain ⟨m, _, hb⟩ := backfill_of_lookups getBlock fmt T A h
    simp only [logsAfterInit, hb]
    exact pastLogs_entries m _
  · intro r hr
    unfold logsAfterInit at hr
    cases hb : backfill getBlock fmt T A with
    | none => simp [hb] at hr
    | some p =>
      simp only [hb] at hr
      obtain ⟨block, _, h2⟩ := backfill_time getBlock fmt T A p hb r hr
      rw [h2]
      exact Option.some_ne_none _

/-- Witness of the amended C8 on both scenarios: the failing lookup of block 10
leaves the feed empty, and with every lookup succeeding the feed is
`[block12-Approval, block10-Transfer]`. -/
theorem backfill_all_or_nothing_witness :
    (∃ bn ∈ uniqueBlocks (allEvents sampleTransfers sampleApprovals),
      chainFailingAt10 bn = none) ∧
    (backfill chainFailingAt10 sampleLocale sampleTransfers sampleApprovals = none ∧
      logsAfterInit chainFailingAt10 sampleLocale sampleTransfers sampleApprovals = []) ∧
    logsAfterInit sampleChain sampleLocale sampleTransfers sampleApprovals = sampleFeed ∧
    ((logsAfterInit sampleChain sampleLocale sampleTransfers sampleApprovals).map
      Log.entry).Perm (allEvents sampleTransfers sampleApprovals) :=
  ⟨by decide,
   (backfill_all_or_nothing chainFailingAt10 sampleLocale sampleTransfers sampleApprovals).1
     (by decide),
   by decide,
   (backfill_all_or_nothing sampleChain sampleLocale sampleTransfers sampleApprovals).2.1
     (by decide)⟩

/-- C9, the behaviour of the code: the record a live handler prepends carries
no block number, so the feed after the update is not in descending block
order even when the event's block is at least that of every record. On the
descending feed `[block12-Approval, block10-Transfer]` a live Approval emitted
in block 15 leaves a feed whose head has `blockNumber` `undefined`. What holds:
the feed left by the backfill is in descending block order. -/
theorem live_prepend_breaks_desc :
    (FeedDesc (sampleFeed.map FeedItem.past) ∧
      LiveEvent.blockNumber sampleApprovalDelivery.event = 15 ∧
      (sampleFeed.map FeedItem.past).map FeedItem.blockNumber = [some 12, some 10] ∧
      deliver sampleLocale sampleApprovalDelivery (some (sampleFeed.map FeedItem.past)) =
        some (sampleLiveApproval :: sampleFeed.map FeedItem.past) ∧
      sampleLiveApproval.blockNumber = none ∧
      ¬ FeedDesc (sampleLiveApproval :: sampleFeed.map FeedItem.past)) ∧
    (∀ (getBlock : Nat → Option Block) (fmt : Nat → String) (T : List TransferEvent)
        (A : List ApprovalEvent),
      Desc (logsAfterInit getBlock fmt T A) ∧
      FeedDesc ((logsAfterInit getBlock fmt T A).map FeedItem.past)) := by
  refine ⟨by decide, ?_⟩
  intro getBlock fmt T A
  have hd : Desc (logsAfterInit getBlock fmt T A) := by
    unfold logsAfterInit
    cases hb : backfill getBlock fmt T A with
    | none => exact List.Pairwise.nil
    | some p =>
      obtain ⟨m, _, rfl⟩ := backfill_some_inv getBlock fmt T A p hb
      exact sort_desc _
  refine ⟨hd, ?_⟩
  rw [FeedDesc, List.pairwise_map]
  exact hd.imp (fun {a b} hab => by simp [descPair, FeedItem.blockNumber, hab])

/-- C10, the behaviour of the code: the cleanup closure tests the `token` of the
first render, which is `null`, so `removeAllListeners` is not called and both
handlers registered by `init` are still registered after unmount; with the
`token` of a later render the same closure body would have removed them. -/
theorem cleanup_keeps_listeners (c : Nat) (ls : Listeners) :
    mountThenUnmount c ls c = ls c ++ ["Transfer", "Approval"] ∧
    mountThenUnmount c ls c ≠ [] ∧
    cleanup (some c) (initSubscribe c ls) c = [] := by
  simp [mountThenUnmount, cleanup, tokenInitial, initSubscribe, contractOn, removeAllListeners]

end App
